import Mathlib

/-!
Shallow embedding of the pubsub-function registry core: the key codec
(SHA-1 based key derivation in `src/model`), the webhook/topic validation
engine, and the Pulsar-backed materialized store (`src/db/pulsardb.go`).
Machine words are modelled as `Nat` with explicit reduction modulo `2 ^ 32`
or `2 ^ 64`; fallible Go functions returning `(value, error)` are modelled
with `Except`; the mutable cache and the append-only Pulsar log are passed
as explicit state.
-/

set_option autoImplicit false
set_option maxRecDepth 1000000

namespace PubsubFunction

/-! ## Key codec: SHA-1 over the UTF-8 bytes of the concatenated names -/

/-- Rotate a 32-bit word (a `Nat` below `2 ^ 32`) left by `n` bits. -/
def rotl (n x : Nat) : Nat :=
  ((x <<< n) % 2 ^ 32) ||| (x >>> (32 - n))

/-- UTF-8 encoding of one character, as byte values. -/
def charUTF8 (c : Char) : List Nat :=
  let n := c.toNat
  if n < 0x80 then [n]
  else if n < 0x800 then
    [0xC0 ||| (n >>> 6), 0x80 ||| (n &&& 0x3F)]
  else if n < 0x10000 then
    [0xE0 ||| (n >>> 12), 0x80 ||| ((n >>> 6) &&& 0x3F), 0x80 ||| (n &&& 0x3F)]
  else
    [0xF0 ||| (n >>> 18), 0x80 ||| ((n >>> 12) &&& 0x3F),
     0x80 ||| ((n >>> 6) &&& 0x3F), 0x80 ||| (n &&& 0x3F)]

/-- UTF-8 bytes of a string, the Go `[]byte(s)` conversion. -/
def strBytes (s : String) : List Nat :=
  (s.toList.map charUTF8).flatten

/-- Big-endian byte expansion of `v` into `n` bytes. -/
def bytesBE : Nat → Nat → List Nat
  | 0, _ => []
  | n + 1, v => bytesBE n (v / 256) ++ [v % 256]

/-- SHA-1 message padding: append `0x80`, zero bytes up to 56 mod 64, and
the 64-bit big-endian bit length. -/
def sha1Pad (msg : List Nat) : List Nat :=
  let l := msg.length
  let k := (55 + 64 - l % 64) % 64
  msg ++ [0x80] ++ List.replicate k 0 ++ bytesBE 8 ((8 * l) % 2 ^ 64)

/-- Combine four bytes into one big-endian 32-bit word, 16 words per chunk. -/
def toWords : List Nat → List Nat
  | b0 :: b1 :: b2 :: b3 :: rest => (((b0 * 256 + b1) * 256 + b2) * 256 + b3) :: toWords rest
  | _ => []

/-- Message-schedule extension; the word list is kept in reverse order, so the
words at offsets 3, 8, 14 and 16 back are at positions 2, 7, 13 and 15. -/
def extendLoop : Nat → List Nat → List Nat
  | 0, ws => ws
  | n + 1, ws =>
    let v := rotl 1 ((ws.getD 2 0) ^^^ (ws.getD 7 0) ^^^ (ws.getD 13 0) ^^^ (ws.getD 15 0))
    extendLoop n (v :: ws)

/-- The 80 words of the SHA-1 message schedule for one 64-byte chunk. -/
def sha1Schedule (chunk : List Nat) : List Nat :=
  (extendLoop 64 (toWords chunk).reverse).reverse

/-- One state of the five SHA-1 working words. -/
abbrev Sha1State := Nat × Nat × Nat × Nat × Nat

/-- The 80 SHA-1 rounds, folding the message schedule into the state. -/
def sha1Rounds : Nat → List Nat → Sha1State → Sha1State
  | _, [], st => st
  | i, w :: ws, (a, b, c, d, e) =>
    let f :=
      if i < 20 then (b &&& c) ||| (((2 ^ 32 - 1) ^^^ b) &&& d)
      else if i < 40 then b ^^^ c ^^^ d
      else if i < 60 then (b &&& c) ||| (b &&& d) ||| (c &&& d)
      else b ^^^ c ^^^ d
    let k :=
      if i < 20 then 0x5A827999
      else if i < 40 then 0x6ED9EBA1
      else if i < 60 then 0x8F1BBCDC
      else 0xCA62C1D6
    let temp := (rotl 5 a + f + e + k + w) % 2 ^ 32
    sha1Rounds (i + 1) ws (temp, a, rotl 30 b, c, d)

/-- Fold one 64-byte chunk into the running hash state. -/
def sha1Chunk (h : Sha1State) (chunk : List Nat) : Sha1State :=
  let (h0, h1, h2, h3, h4) := h
  let (a, b, c, d, e) := sha1Rounds 0 (sha1Schedule chunk) (h0, h1, h2, h3, h4)
  ((h0 + a) % 2 ^ 32, (h1 + b) % 2 ^ 32, (h2 + c) % 2 ^ 32,
   (h3 + d) % 2 ^ 32, (h4 + e) % 2 ^ 32)

/-- Process a padded message 64 bytes at a time; the fuel argument bounds the
number of chunks so the recursion is structural (each step consumes 64 bytes,
so a fuel of the byte length always suffices). -/
def sha1ProcessFuel : Nat → Sha1State → List Nat → Sha1State
  | 0, h, _ => h
  | fuel + 1, h, l =>
    if l.length < 64 then h
    else sha1ProcessFuel fuel (sha1Chunk h (l.take 64)) (l.drop 64)

/-- Process a padded message 64 bytes at a time. -/
def sha1Process (h : Sha1State) (l : List Nat) : Sha1State :=
  sha1ProcessFuel l.length h l

/-- Initial SHA-1 state. -/
def sha1Init : Sha1State :=
  (0x67452301, 0xEFCDAB89, 0x98BADCFE, 0x10325476, 0xC3D2E1F0)

/-- Big-endian bytes of one 32-bit word. -/
def wordBytes (w : Nat) : List Nat :=
  [(w >>> 24) % 256, (w >>> 16) % 256, (w >>> 8) % 256, w % 256]

/-- The 20 digest bytes of a final hash state. -/
def stateBytes : Sha1State → List Nat
  | (h0, h1, h2, h3, h4) =>
    wordBytes h0 ++ wordBytes h1 ++ wordBytes h2 ++ wordBytes h3 ++ wordBytes h4

/-- SHA-1 digest (20 bytes) of a byte list. -/
def sha1Bytes (msg : List Nat) : List Nat :=
  stateBytes (sha1Process sha1Init (sha1Pad msg))

/-- Lowercase hexadecimal digit for a value below 16 (any larger value maps
to a dummy digit; the encoder only ever passes values below 16). -/
def hexDigit (n : Nat) : Char :=
  match n with
  | 0 => '0' | 1 => '1' | 2 => '2' | 3 => '3'
  | 4 => '4' | 5 => '5' | 6 => '6' | 7 => '7'
  | 8 => '8' | 9 => '9' | 10 => 'a' | 11 => 'b'
  | 12 => 'c' | 13 => 'd' | 14 => 'e' | _ => 'f'

/-- Lowercase hexadecimal character list of a byte list, two digits per byte. -/
def hexChars (bs : List Nat) : List Char :=
  bs.foldr (fun b acc => hexDigit (b / 16) :: hexDigit (b % 16) :: acc) []

/-- Lowercase hexadecimal encoding of a byte list, the Go
`hex.EncodeToString`. -/
def hexEncode (bs : List Nat) : String :=
  String.mk (hexChars bs)

/-- Source `model.GenKey`: SHA-1 of the concatenation of the two names,
hex encoded. -/
def GenKey (tenant functionName : String) : String :=
  hexEncode (sha1Bytes (strBytes (tenant ++ functionName)))

/-- Go errors surfaced by the model and db packages. -/
inductive GoErr where
  | notAURL (u : String)
  | missingSubscription
  | unsupportedSubscriptionType (t : String)
  | invalidInitialPosition (p : String)
  | duplicateExclusive (s : String)
  | docNotFound
  | docAlreadyExisted
  | sendFailed
deriving DecidableEq, Repr

/-- Source `model.GetKeyFromNames`: delegates to `GenKey` and never fails. -/
def GetKeyFromNames (tenant functionName : String) : Except GoErr String :=
  .ok (GenKey tenant functionName)

/-! ## Configuration model (`src/model`) -/

/-- Source `model.Status`: the four-state lifecycle; `Deactivated` is the Go
zero value. -/
inductive Status where
  | Deactivated
  | Activated
  | Suspended
  | Deleted
deriving DecidableEq, Inhabited, Repr

/-- Source `model.WebhookConfig`; `time.Time` fields are modelled as `Nat`
instants. -/
structure WebhookConfig where
  URL : String := ""
  Headers : List String := []
  Subscription : String := ""
  SubscriptionType : String := ""
  InitialPosition : String := ""
  WebhookStatus : Status := .Deactivated
  CreatedAt : Nat := 0
  UpdatedAt : Nat := 0
  DeletedAt : Nat := 0
deriving DecidableEq, Inhabited, Repr

/-- Source `model.TopicConfig`. -/
structure TopicConfig where
  TopicFullName : String := ""
  PulsarURL : String := ""
  Token : String := ""
  Tenant : String := ""
  Key : String := ""
  Notes : String := ""
  TopicStatus : Status := .Deactivated
  Webhooks : List WebhookConfig := []
  CreatedAt : Nat := 0
  UpdatedAt : Nat := 0
deriving DecidableEq, Inhabited, Repr

/-- Source `model.FunctionTopic`. -/
structure FunctionTopic where
  TopicFullName : String := ""
  PulsarURL : String := ""
  Token : String := ""
  Tenant : String := ""
  Key : String := ""
  Subscription : String := ""
  SubscriptionType : String := ""
  KeySharedPolicy : String := ""
  InitialPosition : String := ""
deriving DecidableEq, Inhabited, Repr

/-- Source `model.FunctionConfig`, the canonical registry document. -/
structure FunctionConfig where
  Name : String := ""
  ID : String := ""
  Tenant : String := ""
  FunctionStatus : Status := .Deactivated
  FunctionFilePath : String := ""
  LanguagePack : String := ""
  Parallelism : Int := 0
  WebhookURLs : List String := []
  InputTopic : FunctionTopic := {}
  OutputTopic : FunctionTopic := {}
  LogTopic : FunctionTopic := {}
  TriggerType : String := ""
  Cron : String := ""
  CreatedAt : Nat := 0
  UpdatedAt : Nat := 0
  DeletedAt : Nat := 0
deriving DecidableEq, Inhabited, Repr

/-- ASCII lowercase mapping of one character; the Go `strings.ToLower` is
Unicode aware, and the two agree on the ASCII strings validation compares
against. -/
def toLowerChar (c : Char) : Char :=
  if 'A' ≤ c ∧ c ≤ 'Z' then Char.ofNat (c.toNat + 32) else c

/-- ASCII model of the Go `strings.ToLower`. -/
def asciiToLower (s : String) : String :=
  String.mk (s.toList.map toLowerChar)

/-- White space recognized by the Go `strings.TrimSpace` in its ASCII range. -/
def isSpaceByte (c : Char) : Bool :=
  c = ' ' || c = '\t' || c = '\n' || c = '\r' || c.toNat = 11 || c.toNat = 12

/-- ASCII model of the Go `strings.TrimSpace`. -/
def trimSpace (s : String) : String :=
  String.mk (((s.toList.dropWhile isSpaceByte).reverse.dropWhile isSpaceByte).reverse)

/-- Pulsar subscription types, the target of `model.GetSubscriptionType`. -/
inductive PulsarSubscriptionType where
  | Exclusive
  | Shared
  | KeyShared
  | Failover
deriving DecidableEq, Repr

/-- Pulsar initial read positions, the target of `model.GetInitialPosition`. -/
inductive PulsarInitialPosition where
  | Latest
  | Earliest
deriving DecidableEq, Repr

/-- Source `model.GetInitialPosition`: case-insensitive, the empty string
defaults to latest, anything else is an error. -/
def GetInitialPosition (pos : String) : Except GoErr PulsarInitialPosition :=
  let s := asciiToLower pos
  if s = "latest" ∨ s = "" then .ok .Latest
  else if s = "earliest" then .ok .Earliest
  else .error (.invalidInitialPosition pos)

/-- Source `model.GetSubscriptionType`: case-insensitive, the empty string
defaults to exclusive, anything else is an error. -/
def GetSubscriptionType (subType : String) : Except GoErr PulsarSubscriptionType :=
  let s := asciiToLower subType
  if s = "exclusive" ∨ s = "" then .ok .Exclusive
  else if s = "shared" then .ok .Shared
  else if s = "keyshared" then .ok .KeyShared
  else if s = "failover" then .ok .Failover
  else .error (.unsupportedSubscriptionType subType)

/-- Helper for URL parsing: ASCII letters. -/
def isAlphaChar (c : Char) : Bool :=
  ('a' ≤ c && c ≤ 'z') || ('A' ≤ c && c ≤ 'Z')

/-- Helper for URL parsing: characters allowed in a scheme after the first. -/
def isSchemeChar (c : Char) : Bool :=
  isAlphaChar c || c.isDigit || c = '+' || c = '-' || c = '.'

/-- Helper for URL parsing: a scheme is a letter followed by letters, digits,
plus, minus or dot. -/
def validScheme : List Char → Bool
  | [] => false
  | c :: rest => isAlphaChar c && rest.all isSchemeChar

/-- Helper for URL parsing: split a character list at the first colon. -/
def splitAtColon : List Char → Option (List Char × List Char)
  | [] => none
  | c :: rest =>
    if c = ':' then some ([], rest)
    else
      match splitAtColon rest with
      | none => none
      | some (before, after) => some (c :: before, after)

/-- Helper for URL parsing: the host of an authority component, after
stripping a leading userinfo part (up to the last at-sign) and a trailing
port (after a colon). -/
def hostOfAuthority (auth : List Char) : List Char :=
  ((auth.reverse.takeWhile (fun c => c != '@')).reverse).takeWhile (fun c => c != ':')

/-- Modelled from the spec: source `model.IsURL` delegates to the Go
standard library `net/url.Parse`, which is not part of this repository;
per the spec a URL passes exactly when it parses as an absolute URL with a
non-empty scheme and a non-empty host, i.e. a valid scheme before the first
colon, a double slash, and a non-empty host in the authority component. -/
def IsURL (str : String) : Bool :=
  match splitAtColon str.toList with
  | none => false
  | some (scheme, rest) =>
    validScheme scheme &&
    (match rest with
     | '/' :: '/' :: tail =>
       let auth := tail.takeWhile (fun c => c != '/' && c != '?' && c != '#')
       !(hostOfAuthority auth).isEmpty
     | _ => false)

/-- Source `model.ValidateWebhookConfig` loop body: scans the webhooks in
input order keeping the set of exclusive subscription names seen so far
(the Go `exclusiveSubs` map, modelled as a list with membership). -/
def validateWebhookLoop (exclusiveSubs : List String) :
    List WebhookConfig → Except GoErr Unit
  | [] => .ok ()
  | wh :: rest =>
    if !(IsURL wh.URL) then .error (.notAURL wh.URL)
    else if trimSpace wh.Subscription = "" then .error .missingSubscription
    else
      match GetSubscriptionType wh.SubscriptionType with
      | .error e => .error e
      | .ok subType =>
        if subType = .Exclusive ∧ wh.Subscription ∈ exclusiveSubs then
          .error (.duplicateExclusive wh.Subscription)
        else
          let seen :=
            if subType = .Exclusive then wh.Subscription :: exclusiveSubs
            else exclusiveSubs
          match GetInitialPosition wh.InitialPosition with
          | .error e => .error e
          | .ok _ => validateWebhookLoop seen rest

/-- Source `model.ValidateWebhookConfig`: validates a webhook set, starting
from an empty set of seen exclusive subscription names. -/
def ValidateWebhookConfig (whs : List WebhookConfig) : Except GoErr Unit :=
  validateWebhookLoop [] whs

/-- Source `model.ValidateTopicConfig`: webhook validation first, then the
key derived from the topic full name and the pulsar URL. -/
def ValidateTopicConfig (top : TopicConfig) : Except GoErr String :=
  match ValidateWebhookConfig top.Webhooks with
  | .error e => .error e
  | .ok _ => GetKeyFromNames top.TopicFullName top.PulsarURL

/-! ## Materialized store (`src/db/pulsardb.go`) -/

/-- The in-memory cache `PulsarHandler.topics`, a Go map from key to
document, modelled as an association list with at most one binding per key. -/
abbrev Cache := List (String × FunctionConfig)

/-- Map lookup on the cache. -/
def mapLookup (k : String) : Cache → Option FunctionConfig
  | [] => none
  | (k', v) :: rest => if k' = k then some v else mapLookup k rest

/-- Map insertion or replacement on the cache, the Go `m[k] = v`. -/
def mapInsert (k : String) (v : FunctionConfig) : Cache → Cache
  | [] => [(k, v)]
  | (k', v') :: rest =>
    if k' = k then (k, v) :: rest else (k', v') :: mapInsert k v rest

/-- Map removal on the cache, the Go `delete(m, k)`. -/
def mapErase (k : String) : Cache → Cache
  | [] => []
  | (k', v') :: rest =>
    if k' = k then mapErase k rest else (k', v') :: mapErase k rest

/-- State of a `PulsarHandler`: the cache plus the sequence of documents
appended to the Pulsar log topic by this process, in append order. -/
structure DbState where
  topics : Cache := []
  log : List FunctionConfig := []
deriving DecidableEq, Inhabited, Repr

/-- Source `updateCacheAndPulsar`: serialize the document (`json.Marshal`
never fails for this document shape), send it to the producer keyed by the
document ID, and only on a successful send install the document into the
cache under its ID. The outcome of the blocking `producer.Send` call is an
explicit input `sendOk`. -/
def updateCacheAndPulsar (st : DbState) (sendOk : Bool)
    (functionCfg : FunctionConfig) : Except GoErr String × DbState :=
  if sendOk then
    (.ok functionCfg.ID,
     { topics := mapInsert functionCfg.ID functionCfg st.topics,
       log := st.log ++ [functionCfg] })
  else (.error .sendFailed, st)

/-- Modelled from the spec: the db package helper `getKey` is declared
outside the sources under src/; per the spec, Create and Update derive the
document key from the (tenant, name) pair with the key codec. -/
def getKey (functionCfg : FunctionConfig) : Except GoErr String :=
  GetKeyFromNames functionCfg.Tenant functionCfg.Name

/-- Source `Create`: reject a key already present in the cache, otherwise
stamp ID and timestamps and hand over to `updateCacheAndPulsar`. -/
def Create (st : DbState) (now : Nat) (sendOk : Bool)
    (functionCfg : FunctionConfig) : Except GoErr String × DbState :=
  match getKey functionCfg with
  | .error e => (.error e, st)
  | .ok key =>
    if (mapLookup key st.topics).isSome then (.error .docAlreadyExisted, st)
    else
      updateCacheAndPulsar st sendOk
        { functionCfg with ID := key, CreatedAt := now, UpdatedAt := now }

/-- Source `Update`: absent keys fall through to `Create`; for a present key
the source builds a copy of the cached document with replaced Tenant and
FunctionStatus and a refreshed UpdatedAt, but that copy is dead code — the
call below passes the original `functionCfg` argument, exactly as the Go
source does. -/
def Update (st : DbState) (now : Nat) (sendOk : Bool)
    (functionCfg : FunctionConfig) : Except GoErr String × DbState :=
  match getKey functionCfg with
  | .error e => (.error e, st)
  | .ok key =>
    match mapLookup key st.topics with
    | none => Create st now sendOk functionCfg
    | some v0 =>
      let _v := { v0 with Tenant := functionCfg.Tenant,
                          FunctionStatus := functionCfg.FunctionStatus,
                          UpdatedAt := now }
      updateCacheAndPulsar st sendOk functionCfg

/-- Source `GetByKey`: a pure cache read returning a copy of the cached
value, or the zero document plus `DocNotFound`. -/
def GetByKey (st : DbState) (hashedTopicKey : String) :
    Except GoErr FunctionConfig :=
  match mapLookup hashedTopicKey st.topics with
  | some v => .ok v
  | none => .error .docNotFound

/-- Source `GetByTopic`: derive the key from the names, then `GetByKey`. -/
def GetByTopic (st : DbState) (tenant functionName : String) :
    Except GoErr FunctionConfig :=
  match GetKeyFromNames tenant functionName with
  | .error e => .error e
  | .ok key => GetByKey st key

/-- Source `Load`: the Go loop `for _, v := range s.topics` appends `&v` for
every entry, and the enclosing module predates the Go 1.22 change to
per-iteration loop variables, so all appended pointers alias the single
loop variable `v`; after the loop that variable holds the value of the last
entry iterated, so the caller observes one copy of the last entry per
cached key. List order stands in for one possible Go map iteration order. -/
def Load (st : DbState) : List FunctionConfig :=
  match st.topics.getLast? with
  | none => []
  | some (_, v) => List.replicate st.topics.length v

/-- Source `DeleteByKey`: reject an absent key, otherwise append a copy of
the cached document with status `Deleted` and, on a successful send, remove
the entry under the document ID from the cache. -/
def DeleteByKey (st : DbState) (sendOk : Bool) (hashedTopicKey : String) :
    Except GoErr String × DbState :=
  match mapLookup hashedTopicKey st.topics with
  | none => (.error .docNotFound, st)
  | some v0 =>
    let v := { v0 with FunctionStatus := .Deleted }
    if sendOk then
      (.ok hashedTopicKey,
       { topics := mapErase v.ID st.topics, log := st.log ++ [v] })
    else (.error .sendFailed, st)

/-- Source `Delete`: derive the key from the names, then `DeleteByKey`. -/
def Delete (st : DbState) (sendOk : Bool) (tenant functionName : String) :
    Except GoErr String × DbState :=
  match GetKeyFromNames tenant functionName with
  | .error e => (.error e, st)
  | .ok key => DeleteByKey st sendOk key

/-- Source `dbListener` loop body: one record delivered by the tailing
reader, already passed through `json.Unmarshal`; `none` stands for a payload
the decoder rejected, which the listener logs and skips. A decoded document
with status `Deleted` evicts its ID from the cache, any other status is
upserted under its ID. -/
def applyEntry (topics : Cache) (record : Option FunctionConfig) : Cache :=
  match record with
  | none => topics
  | some doc =>
    if doc.FunctionStatus ≠ .Deleted then mapInsert doc.ID doc topics
    else mapErase doc.ID topics

/-- Modelled from the spec: the record-by-record fold the spec describes the
listener performing over a delivered record sequence, with per-message lock
scope. The source's actual read loop is `dbListener` below, which differs:
its deferred unlock freezes the fold after the first decoded record. -/
def replay (topics : Cache) (records : List (Option FunctionConfig)) : Cache :=
  records.foldl applyEntry topics

/-- Source `dbListener` read loop with the lock made explicit. Inside the
infinite loop the source calls `s.topicsLock.Lock()` and then
`defer s.topicsLock.Unlock()`; deferred calls run only at function return,
and the `sync.RWMutex` write lock is not reentrant, so after the first
successfully decoded record the goroutine still holds the write lock, and
the next successfully decoded record blocks forever on `Lock()` — later
records are never folded and the function never returns (so the supervisor
never restarts it). `held` is whether this goroutine already holds the
write lock (false when the listener starts); the result is the cache when
the run stops together with the records left unprocessed at a permanent
block on `Lock()` (empty when the whole sequence was consumed and the
listener is merely waiting on `reader.Next`). Undecodable payloads are
skipped without touching the lock. -/
def dbListener (held : Bool) (topics : Cache) :
    List (Option FunctionConfig) → Cache × List (Option FunctionConfig)
  | [] => (topics, [])
  | r :: rest =>
    match r with
    | none => dbListener held topics rest
    | some doc =>
      if held then (topics, some doc :: rest)
      else dbListener true (applyEntry topics (some doc)) rest

/-! ## Cache lemmas -/

instance exceptDecEq {ε α : Type} [DecidableEq ε] [DecidableEq α] :
    DecidableEq (Except ε α) := fun x y =>
  match x, y with
  | .ok a, .ok b => decidable_of_iff (a = b) (by simp)
  | .error e, .error f => decidable_of_iff (e = f) (by simp)
  | .ok _, .error _ => isFalse (by simp)
  | .error _, .ok _ => isFalse (by simp)

theorem mapLookup_mapInsert_self (k : String) (v : FunctionConfig) (m : Cache) :
    mapLookup k (mapInsert k v m) = some v := by
  induction m with
  | nil => simp [mapInsert, mapLookup]
  | cons p rest ih =>
    obtain ⟨k', v'⟩ := p
    by_cases h : k' = k <;> simp [mapInsert, mapLookup, h, ih]

theorem mapLookup_mapErase_self (k : String) (m : Cache) :
    mapLookup k (mapErase k m) = none := by
  induction m with
  | nil => simp [mapErase, mapLookup]
  | cons p rest ih =>
    obtain ⟨k', v'⟩ := p
    by_cases h : k' = k <;> simp [mapErase, mapLookup, h, ih]

theorem mapInsert_mapInsert_self (k : String) (v : FunctionConfig) (m : Cache) :
    mapInsert k v (mapInsert k v m) = mapInsert k v m := by
  induction m with
  | nil => simp [mapInsert]
  | cons p rest ih =>
    obtain ⟨k', v'⟩ := p
    by_cases h : k' = k <;> simp [mapInsert, h, ih]

theorem mapErase_mapErase_self (k : String) (m : Cache) :
    mapErase k (mapErase k m) = mapErase k m := by
  induction m with
  | nil => simp [mapErase]
  | cons p rest ih =>
    obtain ⟨k', v'⟩ := p
    by_cases h : k' = k <;> simp [mapErase, h, ih]

theorem mapErase_mapInsert_self (k : String) (v : FunctionConfig) (m : Cache) :
    mapErase k (mapInsert k v m) = mapErase k m := by
  induction m with
  | nil => simp [mapInsert, mapErase]
  | cons p rest ih =>
    obtain ⟨k', v'⟩ := p
    by_cases h : k' = k <;> simp [mapInsert, mapErase, h, ih]

theorem mem_mapErase (p : String × FunctionConfig) (k : String) (m : Cache) :
    p ∈ mapErase k m → p ∈ m ∧ p.1 ≠ k := by
  induction m with
  | nil => simp [mapErase]
  | cons q rest ih =>
    obtain ⟨k', v'⟩ := q
    by_cases h : k' = k
    · intro hp
      rcases ih (by simpa [mapErase, h] using hp) with ⟨h1, h2⟩
      exact ⟨List.mem_cons_of_mem _ h1, h2⟩
    · intro hp
      rcases (List.mem_cons).mp (by simpa [mapErase, h] using hp) with h1 | h1
      · subst h1
        exact ⟨List.mem_cons_self _ _, h⟩
      · rcases ih h1 with ⟨h2, h3⟩
        exact ⟨List.mem_cons_of_mem _ h2, h3⟩

theorem mapLookup_mem (k : String) (v : FunctionConfig) (m : Cache) :
    mapLookup k m = some v → (k, v) ∈ m := by
  induction m with
  | nil => simp [mapLookup]
  | cons q rest ih =>
    obtain ⟨k', v'⟩ := q
    by_cases h : k' = k
    · subst h
      simp [mapLookup]
      intro hv
      exact Or.inl hv.symm
    · intro hv
      exact List.mem_cons_of_mem _ (ih (by simpa [mapLookup, h] using hv))

/-! ## Claim theorems -/

/-- C10: the per-record replay fold is idempotent — applying the listener
fold twice in succession with the same record yields the same cache state as
applying it once. -/
theorem c10_applyEntry_idempotent (topics : Cache)
    (record : Option FunctionConfig) :
    applyEntry (applyEntry topics record) record = applyEntry topics record := by
  cases record with
  | none => rfl
  | some doc =>
    by_cases h : doc.FunctionStatus = Status.Deleted
    · simp [applyEntry, h, mapErase_mapErase_self]
    · simp [applyEntry, h, mapInsert_mapInsert_self]

/-- Record for key K with status Activated, delivered first in the C6
scenario. -/
def c6DocA : FunctionConfig :=
  { Name := "fn1", ID := "K", FunctionStatus := .Activated }

/-- Tombstone record for key K with status Deleted, delivered second in the
C6 scenario. -/
def c6DocD : FunctionConfig :=
  { Name := "fn1", ID := "K", FunctionStatus := .Deleted }

/-- C6: code bug — the claim describes the per-record fold (evict on
Deleted, upsert otherwise) applied to every delivered record, but the source
listener takes the non-reentrant write lock inside the read loop with the
unlock deferred to function exit, so on the sequence [Activated, Deleted]
for key K it installs K as Activated, then blocks forever on the second
`Lock()`: the tombstone record is left unprocessed and the cache keeps
K as Activated, whereas the fold the claim describes would leave no entry
for K. -/
theorem c6_dbListener_deadlock :
    dbListener false [] [some c6DocA, some c6DocD] =
      ([("K", c6DocA)], [some c6DocD]) ∧
    mapLookup "K" (dbListener false [] [some c6DocA, some c6DocD]).1 =
      some c6DocA ∧
    mapLookup "K" (replay [] [some c6DocA, some c6DocD]) = none := by
  refine ⟨by decide, by decide, by decide⟩

/-- C2: code bug — Load is meant to return one copy per cached key, but the
Go loop collects pointers to a single loop variable (the module predates the
Go 1.22 per-iteration loop variables), so with two distinct cached documents
every returned entry equals the last iterated one and the first document is
missing from the snapshot. -/
theorem c2_load_aliases_last_entry :
    Load { topics := [("k1", { Name := "fn1", ID := "k1", Tenant := "t1" }),
                      ("k2", { Name := "fn2", ID := "k2", Tenant := "t1",
                               FunctionStatus := .Activated })], log := [] } =
      [{ Name := "fn2", ID := "k2", Tenant := "t1", FunctionStatus := .Activated },
       { Name := "fn2", ID := "k2", Tenant := "t1", FunctionStatus := .Activated }] ∧
    ({ Name := "fn1", ID := "k1", Tenant := "t1" } : FunctionConfig) ∉
      Load { topics := [("k1", { Name := "fn1", ID := "k1", Tenant := "t1" }),
                        ("k2", { Name := "fn2", ID := "k2", Tenant := "t1",
                                 FunctionStatus := .Activated })], log := [] } := by
  constructor <;> decide

/-- Document cached under the derived key in the C1 scenario, with an
UpdatedAt of 5 and the Deactivated status. -/
def c1Old : FunctionConfig :=
  { Name := "fn1", ID := GenKey "t1" "fn1", Tenant := "t1",
    FunctionStatus := .Deactivated, CreatedAt := 5, UpdatedAt := 5 }

/-- Replacement document passed to Update in the C1 scenario: same tenant
and name, status Activated, zero ID and timestamps as a caller would send. -/
def c1Req : FunctionConfig :=
  { Name := "fn1", Tenant := "t1", FunctionStatus := .Activated }

/-- C1: code bug — Update of an existing key builds the refreshed copy of
the cached document and then discards it, appending and caching the caller
document unchanged under the caller ID; at time 100 the log record keeps
UpdatedAt 0, the entry at the derived key keeps the old document, and
GetByKey of the key still returns status Deactivated with UpdatedAt 5. -/
theorem c1_update_keeps_stale_document :
    (Update { topics := [(GenKey "t1" "fn1", c1Old)], log := [] }
        100 true c1Req).2.log = [c1Req] ∧
    GetByKey (Update { topics := [(GenKey "t1" "fn1", c1Old)], log := [] }
        100 true c1Req).2 (GenKey "t1" "fn1") = .ok c1Old ∧
    c1Old.FunctionStatus = .Deactivated ∧ c1Old.UpdatedAt = 5 ∧
    c1Req.UpdatedAt = 0 := by
  refine ⟨by decide, by decide, by decide, by decide, by decide⟩

/-- C4: Create fails with AlreadyExists on a key already in the cache and
leaves the state unchanged; on an absent key it stamps ID, CreatedAt and
UpdatedAt, appends the stamped document to the log and installs it into the
cache keyed by ID when the append succeeds, and leaves the state untouched
when the append fails. -/
theorem c4_create_spec (st : DbState) (now : Nat) (sendOk : Bool)
    (cfg : FunctionConfig) :
    ((mapLookup (GenKey cfg.Tenant cfg.Name) st.topics).isSome →
      Create st now sendOk cfg = (.error .docAlreadyExisted, st)) ∧
    (mapLookup (GenKey cfg.Tenant cfg.Name) st.topics = none → sendOk = true →
      Create st now sendOk cfg =
        (.ok (GenKey cfg.Tenant cfg.Name),
         { topics := mapInsert (GenKey cfg.Tenant cfg.Name)
             { cfg with ID := GenKey cfg.Tenant cfg.Name,
                        CreatedAt := now, UpdatedAt := now } st.topics,
           log := st.log ++
             [{ cfg with ID := GenKey cfg.Tenant cfg.Name,
                         CreatedAt := now, UpdatedAt := now }] })) ∧
    (mapLookup (GenKey cfg.Tenant cfg.Name) st.topics = none → sendOk = false →
      Create st now sendOk cfg = (.error .sendFailed, st)) := by
  refine ⟨fun h => ?_, fun h hs => ?_, fun h hs => ?_⟩
  · simp [Create, getKey, GetKeyFromNames, updateCacheAndPulsar, h]
  · simp [Create, getKey, GetKeyFromNames, updateCacheAndPulsar, h, hs]
  · simp [Create, getKey, GetKeyFromNames, updateCacheAndPulsar, h, hs]

/-- Witness for C4 at concrete inputs: an empty cache accepts the creation
and a cache holding the derived key rejects it. -/
theorem c4_create_witness :
    Create { topics := [], log := [] } 7 true { Name := "fn1", Tenant := "t1" } =
      (.ok (GenKey "t1" "fn1"),
       { topics := mapInsert (GenKey "t1" "fn1")
           { Name := "fn1", Tenant := "t1", ID := GenKey "t1" "fn1",
             CreatedAt := 7, UpdatedAt := 7 } [],
         log := [] ++
           [{ Name := "fn1", Tenant := "t1", ID := GenKey "t1" "fn1",
              CreatedAt := 7, UpdatedAt := 7 }] }) ∧
    Create { topics := [(GenKey "t1" "fn1", c1Old)], log := [] } 7 false
        { Name := "fn1", Tenant := "t1" } =
      (.error .docAlreadyExisted,
       { topics := [(GenKey "t1" "fn1", c1Old)], log := [] }) :=
  ⟨(c4_create_spec { topics := [], log := [] } 7 true
      { Name := "fn1", Tenant := "t1" }).2.1 (by simp [mapLookup]) rfl,
   (c4_create_spec { topics := [(GenKey "t1" "fn1", c1Old)], log := [] } 7 false
      { Name := "fn1", Tenant := "t1" }).1 (by simp [mapLookup])⟩

theorem mem_load (st : DbState) (d : FunctionConfig) (hd : d ∈ Load st) :
    ∃ p ∈ st.topics, d = p.2 := by
  unfold Load at hd
  cases hl : st.topics.getLast? with
  | none => rw [hl] at hd; simp at hd
  | some p =>
    obtain ⟨k, v⟩ := p
    rw [hl] at hd
    have hmem : (k, v) ∈ st.topics := by
      obtain ⟨hne, heq⟩ := List.mem_getLast?_eq_getLast (Option.mem_def.mpr hl)
      rw [heq]
      exact List.getLast_mem hne
    exact ⟨(k, v), hmem, List.eq_of_mem_replicate hd⟩

/-- C5: Delete derives the key and delegates to DeleteByKey; DeleteByKey
fails with NotFound on an absent key leaving the state unchanged, and on a
present key appends a copy of the cached document marked Deleted and, on a
successful append, evicts the key, after which GetByKey fails with NotFound
and no document returned by Load carries the key; a failed append leaves the
state untouched. The cached documents are assumed keyed by their own ID,
which every cache write of the store establishes. -/
theorem c5_delete_spec (st : DbState) (sendOk : Bool) (key : String)
    (hinv : ∀ p ∈ st.topics, (p.2).ID = p.1) :
    (∀ tenant name, GenKey tenant name = key →
      Delete st sendOk tenant name = DeleteByKey st sendOk key) ∧
    (mapLookup key st.topics = none →
      DeleteByKey st sendOk key = (.error .docNotFound, st)) ∧
    (∀ v, mapLookup key st.topics = some v → sendOk = true →
      DeleteByKey st sendOk key =
        (.ok key,
         { topics := mapErase key st.topics,
           log := st.log ++ [{ v with FunctionStatus := .Deleted }] }) ∧
      GetByKey (DeleteByKey st sendOk key).2 key = .error .docNotFound ∧
      ∀ d ∈ Load (DeleteByKey st sendOk key).2, d.ID ≠ key) ∧
    (∀ v, mapLookup key st.topics = some v → sendOk = false →
      DeleteByKey st sendOk key = (.error .sendFailed, st)) := by
  refine ⟨?_, ?_, ?_, ?_⟩
  · intro tenant name hk
    simp [Delete, GetKeyFromNames, hk]
  · intro h
    simp [DeleteByKey, h]
  · intro v hv hs
    have hid : v.ID = key := hinv _ (mapLookup_mem _ _ _ hv)
    have hres : DeleteByKey st sendOk key =
        (.ok key,
         { topics := mapErase key st.topics,
           log := st.log ++ [{ v with FunctionStatus := .Deleted }] }) := by
      simp [DeleteByKey, hv, hs, hid]
    refine ⟨hres, ?_, ?_⟩
    · rw [hres]
      simp [GetByKey, mapLookup_mapErase_self]
    · intro d hd
      rw [hres] at hd
      obtain ⟨p, hp, rfl⟩ := mem_load _ _ hd
      obtain ⟨hpm, hpk⟩ := mem_mapErase _ _ _ hp
      rw [hinv _ hpm]
      exact hpk
  · intro v hv hs
    simp [DeleteByKey, hv, hs]

/-- Witness for C5 at concrete inputs: deleting a cached key succeeds and
empties the cache, deleting an absent key fails with NotFound. -/
theorem c5_delete_witness :
    DeleteByKey { topics := [("k1", { Name := "fn1", ID := "k1" })], log := [] }
        true "k1" =
      (.ok "k1",
       { topics := mapErase "k1" [("k1", { Name := "fn1", ID := "k1" })],
         log := [] ++ [{ Name := "fn1", ID := "k1", FunctionStatus := .Deleted }] }) ∧
    DeleteByKey { topics := [("k1", { Name := "fn1", ID := "k1" })], log := [] }
        true "k2" =
      (.error .docNotFound,
       { topics := [("k1", { Name := "fn1", ID := "k1" })], log := [] }) :=
  ⟨((c5_delete_spec { topics := [("k1", { Name := "fn1", ID := "k1" })], log := [] }
        true "k1" (by decide)).2.2.1 { Name := "fn1", ID := "k1" }
        (by decide) rfl).1,
   (c5_delete_spec { topics := [("k1", { Name := "fn1", ID := "k1" })], log := [] }
        true "k2" (by decide)).2.1 (by decide)⟩

theorem hexChars_length (bs : List Nat) : (hexChars bs).length = 2 * bs.length := by
  induction bs with
  | nil => simp [hexChars]
  | cons b rest ih =>
    simp only [hexChars, List.foldr_cons, List.length_cons] at ih ⊢
    omega

theorem stateBytes_length (st : Sha1State) : (stateBytes st).length = 20 := by
  obtain ⟨h0, h1, h2, h3, h4⟩ := st
  simp [stateBytes, wordBytes]

theorem hexDigit_mem (n : Nat) : hexDigit n ∈ "0123456789abcdef".toList := by
  by_cases h : n < 16
  · interval_cases n <;> decide
  · obtain ⟨m, rfl⟩ : ∃ m, n = m + 16 := ⟨n - 16, by omega⟩
    show ('f' : Char) ∈ _
    decide

theorem hexChars_subset (bs : List Nat) (c : Char) (hc : c ∈ hexChars bs) :
    c ∈ "0123456789abcdef".toList := by
  induction bs with
  | nil => simp [hexChars] at hc
  | cons b rest ih =>
    simp only [hexChars, List.foldr_cons, List.mem_cons] at hc
    rcases hc with rfl | rfl | hc
    · exact hexDigit_mem _
    · exact hexDigit_mem _
    · exact ih hc

/-- C9: key derivation never fails, is determined purely by the byte
concatenation of the two inputs, and is the lowercase hexadecimal encoding
of the fixed-length 20-byte SHA-1 digest, hence always 40 characters over
the lowercase hexadecimal alphabet. -/
theorem c9_genkey_spec (t n t2 n2 : String) (hcat : t ++ n = t2 ++ n2) :
    GetKeyFromNames t n = .ok (GenKey t n) ∧
    GenKey t n = GenKey t2 n2 ∧
    (GenKey t n).length = 40 ∧
    ∀ c ∈ (GenKey t n).toList, c ∈ "0123456789abcdef".toList := by
  refine ⟨rfl, by simp [GenKey, hcat], ?_, ?_⟩
  · show (String.mk (hexChars (sha1Bytes (strBytes (t ++ n))))).length = 40
    have h1 : (sha1Bytes (strBytes (t ++ n))).length = 20 := stateBytes_length _
    simp [String.length, hexChars_length, h1]
  · intro c hc
    exact hexChars_subset _ _ hc

/-- Witness for C9: the key of the pair (t1, fn1) equals the key of the pair
(t1fn1, empty) because the concatenated bytes agree, and it has length 40. -/
theorem c9_genkey_witness :
    GenKey "t1" "fn1" = GenKey "t1fn1" "" ∧ (GenKey "t1" "fn1").length = 40 :=
  ⟨(c9_genkey_spec "t1" "fn1" "t1fn1" "" (by decide)).2.1,
   (c9_genkey_spec "t1" "fn1" "t1fn1" "" (by decide)).2.2.1⟩

/-- Topic configuration for the C3 counterexample: empty webhook set, with
distinct tenant, topic full name and pulsar URL strings. -/
def c3Topic : TopicConfig :=
  { TopicFullName := "tp1", PulsarURL := "pulsar://host", Tenant := "t1" }

/-- C3 counterexample: this topic passes webhook validation, yet
ValidateTopicConfig does not return the key derived from the pair
(tenant, topicFullName) — the source derives it from
(topicFullName, pulsarURL). -/
theorem c3_counterexample :
    ValidateWebhookConfig c3Topic.Webhooks = .ok () ∧
    ValidateTopicConfig c3Topic ≠ .ok (GenKey c3Topic.Tenant c3Topic.TopicFullName) := by
  refine ⟨by decide, by decide⟩

/-- C3 as amended: when the webhook set passes validation,
ValidateTopicConfig succeeds with the key derived from the pair
(topicFullName, pulsarURL), and a webhook validation failure is returned
verbatim. -/
theorem c3_validateTopicConfig (top : TopicConfig) :
    (ValidateWebhookConfig top.Webhooks = .ok () →
      ValidateTopicConfig top = .ok (GenKey top.TopicFullName top.PulsarURL)) ∧
    ∀ e, ValidateWebhookConfig top.Webhooks = .error e →
      ValidateTopicConfig top = .error e := by
  constructor
  · intro h
    simp [ValidateTopicConfig, h, GetKeyFromNames]
  · intro e h
    simp [ValidateTopicConfig, h]

/-- Witness for C3 as amended, at the concrete topic configuration. -/
theorem c3_validateTopicConfig_witness :
    ValidateTopicConfig c3Topic =
      .ok (GenKey c3Topic.TopicFullName c3Topic.PulsarURL) :=
  (c3_validateTopicConfig c3Topic).1 (by decide)

/-! ## Validation scan characterization (C7, C8) -/

/-- Claim-side helper: does this webhook resolve to the exclusive
subscription type. -/
def isExclusiveWh (wh : WebhookConfig) : Bool :=
  match GetSubscriptionType wh.SubscriptionType with
  | .ok .Exclusive => true
  | _ => false

/-- Claim-side helper: the subscription names of the exclusive-typed
webhooks of a list, in input order. -/
def exclNames (whs : List WebhookConfig) : List String :=
  (whs.filter isExclusiveWh).map (fun wh => wh.Subscription)

/-- Claim-side helper: the per-item checks the scan performs before the
duplicate check — URL, non-blank subscription, recognized subscription
type. -/
def itemPreOk (wh : WebhookConfig) : Bool :=
  IsURL wh.URL && (trimSpace wh.Subscription != "") &&
    (match GetSubscriptionType wh.SubscriptionType with
     | .ok _ => true
     | .error _ => false)

/-- Claim-side helper: all per-item checks of one webhook. -/
def itemOk (wh : WebhookConfig) : Bool :=
  itemPreOk wh &&
    (match GetInitialPosition wh.InitialPosition with
     | .ok _ => true
     | .error _ => false)

/-- Claim-side helper: scanning the list in input order with the seen set of
exclusive subscription names started at `seen`, no webhook whose type
resolves to exclusive carries a name already seen. -/
def scanDupFree (seen : List String) : List WebhookConfig → Prop
  | [] => True
  | wh :: rest =>
    ¬(isExclusiveWh wh = true ∧ wh.Subscription ∈ seen) ∧
    scanDupFree (if isExclusiveWh wh then wh.Subscription :: seen else seen) rest

/-- Claim-side characterization of a reported duplicate: the list splits at
the first collision — a fully valid, collision-free prefix, then a webhook
passing the checks that precede the duplicate check, exclusive-typed, whose
name was seen on an earlier exclusive webhook (or in the starting seen set),
and that name is the reported one. -/
def dupWitnessAt (seen : List String) (whs : List WebhookConfig) (s : String) : Prop :=
  ∃ pre wh rest, whs = pre ++ wh :: rest ∧
    (∀ w ∈ pre, itemOk w = true) ∧
    scanDupFree seen pre ∧
    itemPreOk wh = true ∧
    isExclusiveWh wh = true ∧
    wh.Subscription ∈ seen ++ exclNames pre ∧
    wh.Subscription = s

theorem isExclusiveWh_iff (wh : WebhookConfig) (st : PulsarSubscriptionType)
    (hst : GetSubscriptionType wh.SubscriptionType = .ok st) :
    isExclusiveWh wh = true ↔ st = .Exclusive := by
  cases st <;> simp [isExclusiveWh, hst]

theorem getSubscriptionType_error_shape (t : String) (e : GoErr)
    (h : GetSubscriptionType t = .error e) :
    e = .unsupportedSubscriptionType t := by
  simp only [GetSubscriptionType] at h
  split_ifs at h
  all_goals simp_all

theorem getInitialPosition_error_shape (p : String) (e : GoErr)
    (h : GetInitialPosition p = .error e) :
    e = .invalidInitialPosition p := by
  simp only [GetInitialPosition] at h
  split_ifs at h
  all_goals simp_all

theorem exclNames_cons (w : WebhookConfig) (l : List WebhookConfig) :
    exclNames (w :: l) =
      if isExclusiveWh w then w.Subscription :: exclNames l else exclNames l := by
  by_cases h : isExclusiveWh w <;> simp [exclNames, List.filter_cons, h]

theorem mem_append_cons_comm (x nw : String) (a b : List String) :
    x ∈ (nw :: a) ++ b ↔ x ∈ a ++ nw :: b := by
  simp only [List.cons_append, List.mem_cons, List.mem_append]
  tauto

theorem loop_dup_iff (whs : List WebhookConfig) :
    ∀ (seen : List String) (s : String),
      validateWebhookLoop seen whs = .error (.duplicateExclusive s) ↔
        dupWitnessAt seen whs s := by
  induction whs with
  | nil =>
    intro seen s
    simp [validateWebhookLoop, dupWitnessAt]
  | cons w ws ih =>
    intro seen s
    cases hu : IsURL w.URL with
    | false =>
      constructor
      · intro h
        simp [validateWebhookLoop, hu] at h
      · rintro ⟨pre, wh, rest, heq, hpre, hdf, hpok, hexcl, hmem, hname⟩
        cases pre with
        | nil =>
          simp only [List.nil_append, List.cons.injEq] at heq
          obtain ⟨rfl, rfl⟩ := heq
          simp [itemPreOk, hu] at hpok
        | cons p pre' =>
          simp only [List.cons_append, List.cons.injEq] at heq
          obtain ⟨rfl, -⟩ := heq
          have hw := hpre _ (List.mem_cons_self _ _)
          simp [itemOk, itemPreOk, hu] at hw
    | true =>
      by_cases hsub : trimSpace w.Subscription = ""
      · constructor
        · intro h
          simp [validateWebhookLoop, hu, hsub] at h
        · rintro ⟨pre, wh, rest, heq, hpre, hdf, hpok, hexcl, hmem, hname⟩
          cases pre with
          | nil =>
            simp only [List.nil_append, List.cons.injEq] at heq
            obtain ⟨rfl, rfl⟩ := heq
            simp [itemPreOk, hu, hsub] at hpok
          | cons p pre' =>
            simp only [List.cons_append, List.cons.injEq] at heq
            obtain ⟨rfl, -⟩ := heq
            have hw := hpre _ (List.mem_cons_self _ _)
            simp [itemOk, itemPreOk, hu, hsub] at hw
      · cases hst : GetSubscriptionType w.SubscriptionType with
        | error e =>
          have hsh := getSubscriptionType_error_shape _ _ hst
          constructor
          · intro h
            simp [validateWebhookLoop, hu, hsub, hst, hsh] at h
          · rintro ⟨pre, wh, rest, heq, hpre, hdf, hpok, hexcl, hmem, hname⟩
            cases pre with
            | nil =>
              simp only [List.nil_append, List.cons.injEq] at heq
              obtain ⟨rfl, rfl⟩ := heq
              simp [itemPreOk, hu, hsub, hst] at hpok
            | cons p pre' =>
              simp only [List.cons_append, List.cons.injEq] at heq
              obtain ⟨rfl, -⟩ := heq
              have hw := hpre _ (List.mem_cons_self _ _)
              simp [itemOk, itemPreOk, hu, hsub, hst] at hw
        | ok subType =>
          by_cases hdup : subType = PulsarSubscriptionType.Exclusive ∧
              w.Subscription ∈ seen
          · have hexw : isExclusiveWh w = true :=
              (isExclusiveWh_iff w subType hst).mpr hdup.1
            constructor
            · intro h
              have hname : w.Subscription = s := by
                simp [validateWebhookLoop, hu, hsub, hst, hdup] at h
                exact h
              exact ⟨[], w, ws, rfl, by simp, trivial,
                by simp [itemPreOk, hu, hsub, hst], hexw,
                by simpa [exclNames] using hdup.2, hname⟩
            · rintro ⟨pre, wh, rest, heq, hpre, hdf, hpok, hexcl, hmem, hname⟩
              cases pre with
              | nil =>
                simp only [List.nil_append, List.cons.injEq] at heq
                obtain ⟨rfl, rfl⟩ := heq
                simp [validateWebhookLoop, hu, hsub, hst, hdup]
                exact hname
              | cons p pre' =>
                simp only [List.cons_append, List.cons.injEq] at heq
                obtain ⟨rfl, -⟩ := heq
                exact absurd ⟨hexw, hdup.2⟩ hdf.1
          · cases hip : GetInitialPosition w.InitialPosition with
            | error e =>
              have hsh := getInitialPosition_error_shape _ _ hip
              constructor
              · intro h
                simp [validateWebhookLoop, hu, hsub, hst, hdup, hip, hsh] at h
              · rintro ⟨pre, wh, rest, heq, hpre, hdf, hpok, hexcl, hmem, hname⟩
                cases pre with
                | nil =>
                  simp only [List.nil_append, List.cons.injEq] at heq
                  obtain ⟨rfl, rfl⟩ := heq
                  exact absurd ⟨(isExclusiveWh_iff w subType hst).mp hexcl,
                    by simpa [exclNames] using hmem⟩ hdup
                | cons p pre' =>
                  simp only [List.cons_append, List.cons.injEq] at heq
                  obtain ⟨rfl, -⟩ := heq
                  have hw := hpre _ (List.mem_cons_self _ _)
                  simp [itemOk, itemPreOk, hu, hsub, hst, hip] at hw
            | ok ipos =>
              have hwOk : itemOk w = true := by
                simp [itemOk, itemPreOk, hu, hsub, hst, hip]
              by_cases hex : subType = PulsarSubscriptionType.Exclusive
              · have hexw : isExclusiveWh w = true :=
                  (isExclusiveWh_iff w subType hst).mpr hex
                have hnotin : w.Subscription ∉ seen := fun hc => hdup ⟨hex, hc⟩
                have hstep : validateWebhookLoop seen (w :: ws) =
                    validateWebhookLoop (w.Subscription :: seen) ws := by
                  simp [validateWebhookLoop, hu, hsub, hst, hnotin, hip, hex]
                rw [hstep, ih]
                constructor
                · rintro ⟨pre, wh, rest, rfl, hpre, hdf, hpok, hexcl, hmem, hname⟩
                  refine ⟨w :: pre, wh, rest, rfl, ?_, ?_, hpok, hexcl, ?_, hname⟩
                  · intro x hx
                    rcases List.mem_cons.mp hx with rfl | hx
                    · exact hwOk
                    · exact hpre _ hx
                  · refine ⟨fun hc => hdup ⟨hex, hc.2⟩, ?_⟩
                    simpa [hexw] using hdf
                  · rw [exclNames_cons, if_pos hexw]
                    exact (mem_append_cons_comm _ _ _ _).mp hmem
                · rintro ⟨pre, wh, rest, heq, hpre, hdf, hpok, hexcl, hmem, hname⟩
                  cases pre with
                  | nil =>
                    simp only [List.nil_append, List.cons.injEq] at heq
                    obtain ⟨rfl, rfl⟩ := heq
                    refine absurd ⟨(isExclusiveWh_iff w subType hst).mp hexcl, ?_⟩ hdup
                    simpa [exclNames] using hmem
                  | cons p pre' =>
                    simp only [List.cons_append, List.cons.injEq] at heq
                    obtain ⟨rfl, rfl⟩ := heq
                    refine ⟨pre', wh, rest, rfl, fun x hx => hpre _ (List.mem_cons_of_mem _ hx),
                      by simpa [hexw] using hdf.2, hpok, hexcl, ?_, hname⟩
                    rw [exclNames_cons, if_pos hexw] at hmem
                    exact (mem_append_cons_comm _ _ _ _).mpr hmem
              · have hexw : isExclusiveWh w = false := by
                  rw [Bool.eq_false_iff]
                  intro hc
                  exact hex ((isExclusiveWh_iff _ _ hst).mp hc)
                have hstep : validateWebhookLoop seen (w :: ws) =
                    validateWebhookLoop seen ws := by
                  simp [validateWebhookLoop, hu, hsub, hst, hdup, hip, hex]
                rw [hstep, ih]
                constructor
                · rintro ⟨pre, wh, rest, rfl, hpre, hdf, hpok, hexcl, hmem, hname⟩
                  refine ⟨w :: pre, wh, rest, rfl, ?_, ?_, hpok, hexcl, ?_, hname⟩
                  · intro x hx
                    rcases List.mem_cons.mp hx with rfl | hx
                    · exact hwOk
                    · exact hpre _ hx
                  · exact ⟨fun hc => by simp [hexw] at hc, by simpa [hexw] using hdf⟩
                  · rw [exclNames_cons, if_neg (by simp [hexw])]
                    exact hmem
                · rintro ⟨pre, wh, rest, heq, hpre, hdf, hpok, hexcl, hmem, hname⟩
                  cases pre with
                  | nil =>
                    simp only [List.nil_append, List.cons.injEq] at heq
                    obtain ⟨rfl, rfl⟩ := heq
                    rw [Bool.eq_false_iff] at hexw
                    exact absurd hexcl hexw
                  | cons p pre' =>
                    simp only [List.cons_append, List.cons.injEq] at heq
                    obtain ⟨rfl, rfl⟩ := heq
                    refine ⟨pre', wh, rest, rfl, fun x hx => hpre _ (List.mem_cons_of_mem _ hx),
                      by simpa [hexw] using hdf.2, hpok, hexcl, ?_, hname⟩
                    rw [exclNames_cons, if_neg (by simp [hexw])] at hmem
                    exact hmem

/-- C7: the validation scan fails with DuplicateExclusiveSubscription for
name s exactly when the list splits at a first collision — a prefix whose
webhooks all pass every per-item check with no exclusive-name collision
among them, followed by a webhook that passes the checks preceding the
duplicate check, resolves to the exclusive type, and carries the name s
already seen on an earlier exclusive webhook of the prefix. -/
theorem c7_duplicate_iff (whs : List WebhookConfig) (s : String) :
    ValidateWebhookConfig whs = .error (.duplicateExclusive s) ↔
      ∃ pre wh rest, whs = pre ++ wh :: rest ∧
        (∀ w ∈ pre, itemOk w = true) ∧
        scanDupFree [] pre ∧
        itemPreOk wh = true ∧
        isExclusiveWh wh = true ∧
        wh.Subscription ∈ exclNames pre ∧
        wh.Subscription = s := by
  rw [ValidateWebhookConfig, loop_dup_iff]
  unfold dupWitnessAt
  simp only [List.nil_append]

theorem getSubscriptionType_ok_mem (t : String) (s : PulsarSubscriptionType)
    (h : GetSubscriptionType t = .ok s) :
    asciiToLower t ∈ ["exclusive", "", "shared", "keyshared", "failover"] := by
  simp only [GetSubscriptionType] at h
  split_ifs at h with h1 h2 h3 h4
  all_goals simp_all
  all_goals tauto

theorem getInitialPosition_ok_mem (p : String) (s : PulsarInitialPosition)
    (h : GetInitialPosition p = .ok s) :
    asciiToLower p ∈ ["latest", "", "earliest"] := by
  simp only [GetInitialPosition] at h
  split_ifs at h with h1 h2
  all_goals simp_all
  all_goals tauto

theorem getSubscriptionType_not_mem (t : String)
    (h : asciiToLower t ∉ ["exclusive", "", "shared", "keyshared", "failover"]) :
    GetSubscriptionType t = .error (.unsupportedSubscriptionType t) := by
  obtain ⟨h1, h2, h3, h4, h5⟩ :
      asciiToLower t ≠ "exclusive" ∧ asciiToLower t ≠ "" ∧
      asciiToLower t ≠ "shared" ∧ asciiToLower t ≠ "keyshared" ∧
      asciiToLower t ≠ "failover" := by simpa [not_or] using h
  simp [GetSubscriptionType, h1, h2, h3, h4, h5]

theorem getInitialPosition_not_mem (p : String)
    (h : asciiToLower p ∉ ["latest", "", "earliest"]) :
    GetInitialPosition p = .error (.invalidInitialPosition p) := by
  obtain ⟨h1, h2, h3⟩ :
      asciiToLower p ≠ "latest" ∧ asciiToLower p ≠ "" ∧
      asciiToLower p ≠ "earliest" := by simpa [not_or] using h
  simp [GetInitialPosition, h1, h2, h3]

theorem validate_ok_member (whs : List WebhookConfig) :
    ∀ seen, validateWebhookLoop seen whs = .ok () →
      ∀ w ∈ whs, IsURL w.URL = true ∧ trimSpace w.Subscription ≠ "" ∧
        asciiToLower w.SubscriptionType ∈
          ["exclusive", "", "shared", "keyshared", "failover"] ∧
        asciiToLower w.InitialPosition ∈ ["latest", "", "earliest"] := by
  induction whs with
  | nil =>
    intro seen h w hw
    simp at hw
  | cons wh rest ih =>
    intro seen h w hw
    cases hu : IsURL wh.URL with
    | false => simp [validateWebhookLoop, hu] at h
    | true =>
      by_cases hsub : trimSpace wh.Subscription = ""
      · simp [validateWebhookLoop, hu, hsub] at h
      · cases hst : GetSubscriptionType wh.SubscriptionType with
        | error e => simp [validateWebhookLoop, hu, hsub, hst] at h
        | ok subType =>
          by_cases hdup : subType = PulsarSubscriptionType.Exclusive ∧
              wh.Subscription ∈ seen
          · simp [validateWebhookLoop, hu, hsub, hst, hdup] at h
          · cases hip : GetInitialPosition wh.InitialPosition with
            | error e => simp [validateWebhookLoop, hu, hsub, hst, hdup, hip] at h
            | ok ipos =>
              have h' : validateWebhookLoop
                  (if subType = PulsarSubscriptionType.Exclusive
                   then wh.Subscription :: seen else seen) rest = .ok () := by
                simpa [validateWebhookLoop, hu, hsub, hst, hdup, hip] using h
              rcases List.mem_cons.mp hw with rfl | hw
              · exact ⟨hu, hsub, getSubscriptionType_ok_mem _ _ hst,
                  getInitialPosition_ok_mem _ _ hip⟩
              · exact ih _ h' w hw

/-- C8: per-item validation — a successful validation certifies for every
webhook of the set an accepted URL, a non-blank trimmed subscription name, a
recognized case-insensitive subscription type (empty defaulting to
exclusive) and a recognized case-insensitive initial position (empty
defaulting to latest); and a webhook at the head of the remaining scan
failing a check makes the scan fail with the matching error kind: InvalidURL,
MissingSubscription, UnsupportedSubscriptionType, InvalidInitialPosition. -/
theorem c8_item_checks (whs : List WebhookConfig) (seen : List String)
    (wh : WebhookConfig) (rest : List WebhookConfig) :
    (ValidateWebhookConfig whs = .ok () →
      ∀ w ∈ whs, IsURL w.URL = true ∧ trimSpace w.Subscription ≠ "" ∧
        asciiToLower w.SubscriptionType ∈
          ["exclusive", "", "shared", "keyshared", "failover"] ∧
        asciiToLower w.InitialPosition ∈ ["latest", "", "earliest"]) ∧
    (IsURL wh.URL = false →
      validateWebhookLoop seen (wh :: rest) = .error (.notAURL wh.URL)) ∧
    (IsURL wh.URL = true → trimSpace wh.Subscription = "" →
      validateWebhookLoop seen (wh :: rest) = .error .missingSubscription) ∧
    (IsURL wh.URL = true → trimSpace wh.Subscription ≠ "" →
      asciiToLower wh.SubscriptionType ∉
        ["exclusive", "", "shared", "keyshared", "failover"] →
      validateWebhookLoop seen (wh :: rest) =
        .error (.unsupportedSubscriptionType wh.SubscriptionType)) ∧
    (IsURL wh.URL = true → trimSpace wh.Subscription ≠ "" →
      ∀ subType, GetSubscriptionType wh.SubscriptionType = .ok subType →
        ¬(subType = PulsarSubscriptionType.Exclusive ∧ wh.Subscription ∈ seen) →
        asciiToLower wh.InitialPosition ∉ ["latest", "", "earliest"] →
        validateWebhookLoop seen (wh :: rest) =
          .error (.invalidInitialPosition wh.InitialPosition)) := by
  refine ⟨validate_ok_member whs [], ?_, ?_, ?_, ?_⟩
  · intro hu
    simp [validateWebhookLoop, hu]
  · intro hu hsub
    simp [validateWebhookLoop, hu, hsub]
  · intro hu hsub hmem
    have hst := getSubscriptionType_not_mem _ hmem
    simp [validateWebhookLoop, hu, hsub, hst]
  · intro hu hsub subType hst hdup hmem
    have hip := getInitialPosition_not_mem _ hmem
    simp [validateWebhookLoop, hu, hsub, hst, hdup, hip]

theorem mem_mapInsert (p : String × FunctionConfig) (k : String)
    (v : FunctionConfig) (m : Cache) (hp : p ∈ mapInsert k v m) :
    p = (k, v) ∨ p ∈ m := by
  induction m with
  | nil => simpa [mapInsert] using hp
  | cons q rest ih =>
    obtain ⟨k', v'⟩ := q
    by_cases h : k' = k
    · rcases List.mem_cons.mp (by simpa [mapInsert, h] using hp) with rfl | hm
      · exact Or.inl rfl
      · exact Or.inr (List.mem_cons_of_mem _ hm)
    · rcases List.mem_cons.mp (by simpa [mapInsert, h] using hp) with rfl | hm
      · exact Or.inr (List.mem_cons_self _ _)
      · rcases ih hm with h1 | h1
        · exact Or.inl h1
        · exact Or.inr (List.mem_cons_of_mem _ h1)

/-- Every cache write performed by the store operations and by the replay
fold stores a document under its own ID, so the ID-keyed hypothesis of the
Delete theorem holds in every state the store can reach. -/
theorem store_writes_id_keyed (st : DbState) (now : Nat) (sendOk : Bool)
    (cfg : FunctionConfig) (key : String) (r : Option FunctionConfig)
    (hinv : ∀ p ∈ st.topics, (p.2).ID = p.1) :
    (∀ p ∈ (Create st now sendOk cfg).2.topics, (p.2).ID = p.1) ∧
    (∀ p ∈ (Update st now sendOk cfg).2.topics, (p.2).ID = p.1) ∧
    (∀ p ∈ (DeleteByKey st sendOk key).2.topics, (p.2).ID = p.1) ∧
    (∀ p ∈ applyEntry st.topics r, (p.2).ID = p.1) := by
  have hins : ∀ (v : FunctionConfig) (p : String × FunctionConfig),
      p ∈ mapInsert v.ID v st.topics → (p.2).ID = p.1 := by
    intro v p hp
    rcases mem_mapInsert _ _ _ _ hp with rfl | hm
    · rfl
    · exact hinv _ hm
  have hers : ∀ (k : String) (p : String × FunctionConfig),
      p ∈ mapErase k st.topics → (p.2).ID = p.1 :=
    fun k p hp => hinv _ (mem_mapErase _ _ _ hp).1
  have hupd : ∀ (c : FunctionConfig) (p : String × FunctionConfig),
      p ∈ (updateCacheAndPulsar st sendOk c).2.topics → (p.2).ID = p.1 := by
    intro c p hp
    cases sendOk with
    | true => exact hins _ _ (by simpa [updateCacheAndPulsar] using hp)
    | false => exact hinv _ (by simpa [updateCacheAndPulsar] using hp)
  have hcre : ∀ p ∈ (Create st now sendOk cfg).2.topics, (p.2).ID = p.1 := by
    intro p hp
    simp only [Create, getKey, GetKeyFromNames] at hp
    by_cases hk : (mapLookup (GenKey cfg.Tenant cfg.Name) st.topics).isSome
    · rw [if_pos hk] at hp
      exact hinv _ hp
    · rw [if_neg hk] at hp
      exact hupd _ _ hp
  have hup : ∀ p ∈ (Update st now sendOk cfg).2.topics, (p.2).ID = p.1 := by
    intro p hp
    simp only [Update, getKey, GetKeyFromNames] at hp
    cases hl : mapLookup (GenKey cfg.Tenant cfg.Name) st.topics with
    | none =>
      rw [hl] at hp
      exact hcre _ (by simpa [Create, getKey, GetKeyFromNames] using hp)
    | some v0 =>
      rw [hl] at hp
      exact hupd _ _ hp
  have hdel : ∀ p ∈ (DeleteByKey st sendOk key).2.topics, (p.2).ID = p.1 := by
    intro p hp
    simp only [DeleteByKey] at hp
    cases hl : mapLookup key st.topics with
    | none =>
      rw [hl] at hp
      exact hinv _ hp
    | some v0 =>
      rw [hl] at hp
      cases sendOk with
      | true => exact hers _ _ (by simpa using hp)
      | false => exact hinv _ (by simpa using hp)
  have happ : ∀ p ∈ applyEntry st.topics r, (p.2).ID = p.1 := by
    intro p hp
    cases r with
    | none => exact hinv _ hp
    | some doc =>
      by_cases hd : doc.FunctionStatus = Status.Deleted
      · exact hers _ _ (by simpa [applyEntry, hd] using hp)
      · exact hins _ _ (by simpa [applyEntry, hd] using hp)
  exact ⟨hcre, hup, hdel, happ⟩

/-- Webhook passing every per-item check, for the C8 witness. -/
def c8WhOk : WebhookConfig :=
  { URL := "https://example.com/hook", Subscription := "sub1",
    SubscriptionType := "shared" }

/-- Webhook with a rejected URL, for the C8 witness. -/
def c8WhBad : WebhookConfig :=
  { URL := "not-a-url" }

/-- Witness for C8 at concrete inputs: a passing webhook set certifies the
per-item facts, a bad URL yields InvalidURL, a bad initial position yields
InvalidInitialPosition. -/
theorem c8_item_checks_witness :
    (IsURL c8WhOk.URL = true ∧ trimSpace c8WhOk.Subscription ≠ "" ∧
     asciiToLower c8WhOk.SubscriptionType ∈
       ["exclusive", "", "shared", "keyshared", "failover"] ∧
     asciiToLower c8WhOk.InitialPosition ∈ ["latest", "", "earliest"]) ∧
    validateWebhookLoop [] [c8WhBad] = .error (.notAURL c8WhBad.URL) ∧
    validateWebhookLoop [] [{ c8WhOk with InitialPosition := "middle" }] =
      .error (.invalidInitialPosition "middle") :=
  ⟨(c8_item_checks [c8WhOk] [] c8WhOk []).1 (by decide) c8WhOk (by simp),
   (c8_item_checks [] [] c8WhBad []).2.1 (by decide),
   (c8_item_checks [] [] { c8WhOk with InitialPosition := "middle" } []).2.2.2.2
     (by decide) (by decide) .Shared (by decide) (by decide) (by decide)⟩

end PubsubFunction

